import Mathlib

/-!
# Verification of the publish-to-git orchestration core

This file embeds, in Lean 4, the orchestration core of the publish-to-git
repository (TypeScript):

* `Validator.isValid`            (validator.ts)
* `GitBranch.isValidBranchName`, `GitBranch.create`,
  `GitBranch.enumerateGitRepoBranches` and its two regular expressions
                                 (gitBranch.ts)
* the publish workflow `main`, `checkInitialConditions`,
  `getInstanceConfig`, `checkoutTempBranch`, `deleteTrackedFiles`
                                 (publishtogit.ts)

External subprocess results (git queries, clone, filesystem) are supplied by
an environment record; the control flow, error messages and emitted-operation
traces are translated statement by statement from the source.  JavaScript
string/regex semantics (whitespace classes, `\w`, the dot excluding line
terminators, `String.prototype.trim`, `Promise` stringification) are modelled
explicitly where the source relies on them.
-/

/-! ## JavaScript character classes and string primitives -/

/-- JavaScript `\w` character class: `[A-Za-z0-9_]`. -/
def isWordChar (c : Char) : Bool :=
  ('a' ≤ c && c ≤ 'z') || ('A' ≤ c && c ≤ 'Z') || ('0' ≤ c && c ≤ '9') || c = '_'

/-- The character class `[\w/]` used by the HEAD-line filter regex in
`enumerateGitRepoBranches`. -/
def isWordSlash (c : Char) : Bool :=
  isWordChar c || c = '/'

/-- The character class `[\w.-]` used for the remote-name group of
`GitBranch.strParserRegex`. -/
def isRemoteChar (c : Char) : Bool :=
  isWordChar c || c = '.' || c = '-'

/-- JavaScript whitespace (`\s`, and the set removed by
`String.prototype.trim`): WhiteSpace plus LineTerminator code points. -/
def jsWhitespace (c : Char) : Bool :=
  c = ' ' || c = '\t' || c = '\n' || c = '\x0b' || c = '\x0c' || c = '\r' ||
  c = ' ' || c = ' ' ||
  (' ' ≤ c && c ≤ ' ') ||
  c = ' ' || c = ' ' || c = ' ' || c = ' ' ||
  c = '　' || c = '﻿'

/-- JavaScript LineTerminator code points, which the regex metacharacter `.`
does **not** match. -/
def isJsLineTerminator (c : Char) : Bool :=
  c = '\n' || c = '\r' || c = ' ' || c = ' '

/-- JavaScript `String.prototype.trim`: drop leading and trailing JS whitespace. -/
def jsTrim (l : List Char) : List Char :=
  ((l.dropWhile jsWhitespace).reverse.dropWhile jsWhitespace).reverse

/-- JavaScript `String.prototype.split` with a single-character separator. -/
def splitOnChar (sep : Char) : List Char → List (List Char)
  | [] => [[]]
  | c :: rest =>
    let r := splitOnChar sep rest
    if c = sep then
      [] :: r
    else
      match r with
      | h :: t => (c :: h) :: t
      | [] => [[c]]

/-- Here `leadsWith pat l` holds when `pat` is an initial segment of `l`. -/
def leadsWith : List Char → List Char → Bool
  | [], _ => true
  | _ :: _, [] => false
  | p :: ps, c :: cs => p = c && leadsWith ps cs

/-- Substring test on character lists (`String.prototype.includes`). -/
def containsSub (needle : List Char) : List Char → Bool
  | [] => needle.isEmpty
  | c :: rest => leadsWith needle (c :: rest) || containsSub needle rest

/-- Substring test on strings. -/
def strContains (needle hay : String) : Bool :=
  containsSub needle.toList hay.toList

/-- Helper for `lodashUniq`: keep elements not seen before. -/
def dedupAux (seen : List String) : List String → List String
  | [] => []
  | x :: rest =>
    if seen.contains x then dedupAux seen rest
    else x :: dedupAux (x :: seen) rest

/-- lodash `_.uniq`: first occurrences, in order. -/
def lodashUniq (l : List String) : List String :=
  dedupAux [] l

/-- lodash `_.intersection(a, b)`: the unique values of `a` that also occur in
`b`, in the order of `a` (used at publishtogit.ts:117). -/
def lodashIntersection (a b : List String) : List String :=
  lodashUniq (a.filter (fun x => b.contains x))

/-! ## Error taxonomy

The TypeScript source throws plain `Error` objects with distinct messages;
the spec's taxonomy distinguishes validation errors, subprocess failures
(`ProcessError{exitCode, stderr}`), invalid-branch-name errors and parse
errors.  The constructors below keep those classes distinct. -/

inductive GitError where
  | validationError (msg : String)
  | invalidBranchName (msg : String)
  | processError (exitCode : Int) (stderr : String)
  | parseError (msg : String)
deriving DecidableEq, Repr

/-! ## Validator (validator.ts) -/

/-- The result of one validator function applied to a subject: `.ok b` models
a `boolean`/fulfilled `Promise<boolean>`, `.error ()` models a rejected
promise. -/
abbrev PredResult := Except Unit Bool

/-- Embedding of `Validator.isValid` (validator.ts lines 44-61): wrap every validator
result in a promise, `Promise.all` them, return the conjunction
(`_.every`); if any validator rejected, the `catch` handler turns the
aggregate into `false`.  The Lean model is a total `Bool`-valued function,
which captures the documented guarantee that `isValid` itself never
rejects. -/
def Validator.isValid {α : Type} (validatorFuncs : List (α → PredResult)) (subject : α) : Bool :=
  match validatorFuncs.mapM (fun f => f subject) with
  | .error _ => false
  | .ok validationResults => validationResults.all id

/-! ## GitBranch (gitBranch.ts) -/

/-- A branch identity: a name and an optional remote name. -/
structure GitBranch where
  name : String
  remoteName : Option String
deriving DecidableEq, Repr

/-- The private `GitBranch` constructor (gitBranch.ts lines 196-201):
`this._remoteName = remoteName || undefined`, so an empty-string remote is
normalized to `undefined`. -/
def mkGitBranch (branchName : String) (remoteName : Option String) : GitBranch :=
  ⟨branchName, match remoteName with
               | some "" => none
               | r => r⟩

/-- Embedding of `GitBranch.isValidBranchName` (gitBranch.ts lines 98-123), which delegates to
the external subprocess `git check-ref-format --allow-onelevel <name>`; exit
code 0 means valid, any failure means invalid, and the promise never
rejects.  The subprocess itself is outside this repository, so its verdict
is a parameter `checkRefFormat`; the `then`/`catch` conversion to a
never-rejecting boolean is the modelled code. -/
def GitBranch.isValidBranchName (checkRefFormat : String → Bool) (branchName : String) : PredResult :=
  .ok (checkRefFormat branchName)

/-- Embedding of `GitBranch.create` (gitBranch.ts lines 136-145): validate the name
through a `Validator` wrapping `isValidBranchName`; throw the
invalid-branch-name error when validation fails, otherwise construct the
branch. -/
def GitBranch.create (checkRefFormat : String → Bool) (branchName : String)
    (remoteName : Option String) : Except GitError GitBranch :=
  if Validator.isValid [GitBranch.isValidBranchName checkRefFormat] branchName then
    .ok (mkGitBranch branchName remoteName)
  else
    .error (.invalidBranchName
      ("Cannot create GitBranch instance from invalid branch name " ++ branchName ++ "."))

/-! ### The two regular expressions of gitBranch.ts

The noise filter (line 165) is `/^[\w/]+\/HEAD\s+->\s+[\w/]+$/` and the
line parser (line 78, `strParserRegex`) is `/^(remotes\/([\w.-]+)\/)?(.*)$/`.
Both are compiled here into executable matchers.  Greedy `\s+`, `[\w.-]+`
and `[\w/]+` runs are determinized by maximal munch, which is exact because
each run's character class is disjoint from the character required
immediately after it (`-`, `/` and end-of-line are not whitespace;
`/` is not in `[\w.-]`). -/

/-- The suffix `\s+->\s+[\w/]+$` of the HEAD-line filter regex. -/
def matchHeadTail (l : List Char) : Bool :=
  match l with
  | [] => false
  | c :: rest =>
    jsWhitespace c &&
      (match rest.dropWhile jsWhitespace with
       | '-' :: '>' :: r2 =>
         (match r2 with
          | [] => false
          | d :: r3 =>
            jsWhitespace d &&
              (let r4 := r3.dropWhile jsWhitespace
               !r4.isEmpty && r4.all isWordSlash))
       | _ => false)

/-- Matcher for `[\w/]*\/HEAD\s+->\s+[\w/]+$` with backtracking: at every
position either take the literal `/HEAD` exit or consume one more `[\w/]`
character. -/
def matchFilterAfterOne : List Char → Bool
  | [] => false
  | c :: rest =>
    (c = '/' &&
      (match rest with
       | 'H' :: 'E' :: 'A' :: 'D' :: r => matchHeadTail r
       | _ => false))
    || (isWordSlash c && matchFilterAfterOne rest)

/-- The full anchored filter regex `^[\w/]+\/HEAD\s+->\s+[\w/]+$`
(gitBranch.ts line 165): lines matching it are discarded as the
`remotes/origin/HEAD -> origin/master` symbolic-reference noise line. -/
def filterHeadLine (l : List Char) : Bool :=
  match l with
  | [] => false
  | c :: rest => isWordSlash c && matchFilterAfterOne rest

/-- Embedding of `GitBranch.strParserRegex.exec` (gitBranch.ts line 78):
`/^(remotes\/([\w.-]+)\/)?(.*)$/`.  Returns `none` when the regex does not
match (JavaScript `.` matches no LineTerminator, so any line containing one
defeats `(.*)$`); otherwise returns (group 2, group 3): the optional remote
name and the branch name. -/
def strParserExec (l : List Char) : Option (Option (List Char) × List Char) :=
  if l.any isJsLineTerminator then
    none
  else
    some (match l with
      | 'r' :: 'e' :: 'm' :: 'o' :: 't' :: 'e' :: 's' :: '/' :: rest =>
        let run := rest.takeWhile isRemoteChar
        if run.isEmpty then (none, l)
        else
          (match rest.dropWhile isRemoteChar with
           | '/' :: nm => (some run, nm)
           | _ => (none, l))
      | _ => (none, l))

/-- The marker strip `replace(/^\*\s+/, "")` (gitBranch.ts line 163): strip the current-branch
marker `*` together with the following whitespace run. -/
def stripCurrentMarker (l : List Char) : List Char :=
  match l with
  | c0 :: c1 :: rest =>
    if c0 = '*' && jsWhitespace c1 then (c1 :: rest).dropWhile jsWhitespace
    else l
  | _ => l

/-- One step of the `_.chain(...).map` at gitBranch.ts lines 169-184: parse a
line with `strParserRegex`; a non-match is the fatal parse error. -/
def parseBranchLine (longName : List Char) : Except GitError GitBranch :=
  match strParserExec longName with
  | none =>
    .error (.parseError
      ("Error: Branch \"" ++ String.mk longName ++
       "\" could not be parsed by enumerateGitRepoBranches()."))
  | some (remoteName, branchName) =>
    .ok (mkGitBranch (String.mk branchName) (remoteName.map String.mk))

/-- Embedding of `GitBranch.enumerateGitRepoBranches` (gitBranch.ts lines 155-186),
applied to the stdout of `git branch -a`: split on newlines, trim, strip the
current-branch marker, drop lines matching the HEAD noise filter, trim
again, and parse every surviving line. -/
def GitBranch.enumerateGitRepoBranches (stdout : String) : Except GitError (List GitBranch) :=
  (((((splitOnChar '\n' stdout.toList).map jsTrim).map stripCurrentMarker).filter
      (fun curLine => !filterHeadLine curLine)).map jsTrim).mapM parseBranchLine

/-! ## The publish workflow (publishtogit.ts)

`publishtogit.ts` drives one run of the workflow.  Its own control flow —
the validation order, the error messages, which operations it invokes and in
which order, the dry-run stop, and the final report — is embedded below.
The results of the external git/filesystem subprocesses it consumes come
from an `Env` record: the workflow's git queries are read from the record,
and its mutating operations are recorded in an emitted-operation trace. -/

/-- A timestamp as decomposed by the JavaScript `Date` accessors used at
publishtogit.ts lines 232-235 (`getMonth` is 0-based; `getMilliseconds` is
included by the source). -/
structure JsDate where
  year : Nat
  month : Nat
  date : Nat
  hours : Nat
  minutes : Nat
  seconds : Nat
  ms : Nat
deriving DecidableEq, Repr

/-- The datestamp template literal of `checkoutTempBranch`
(publishtogit.ts lines 233-235). -/
def datestamp (now : JsDate) : String :=
  toString now.year ++ "_" ++ toString now.month ++ "_" ++ toString now.date ++ "_" ++
  toString now.hours ++ "_" ++ toString now.minutes ++ "_" ++ toString now.seconds ++ "." ++
  toString now.ms

/-- The temporary branch name `` `${baseName}-${user.username}-${datestamp}` ``
(publishtogit.ts line 239). -/
def tempBranchName (baseName username : String) (now : JsDate) : String :=
  baseName ++ "-" ++ username ++ "-" ++ datestamp now

/-- A still-pending JavaScript `Promise` wrapping a value of type `α`:
the un-awaited `publishRepo.currentCommitHash()` of publishtogit.ts
line 182 has this type. -/
structure JsPromise (α : Type) where
  val : α
deriving DecidableEq, Repr

/-- Default JavaScript stringification of a `Promise` object, as produced by
`` `${p.toString()}` `` on a promise `p`: the value inside is not consulted. -/
def JsPromise.jsToString {α : Type} (_ : JsPromise α) : String :=
  "[object Promise]"

/-- The subprocess/filesystem operations started by one workflow run, in the
order the source fires them.  Query results are environment-supplied; the
trace records that (and when) each operation was started. -/
inductive Op where
  | modifiedFilesOp
  | untrackedFilesOp
  | tagsOp
  | currentCommitHashOp
  | deletePublishDirOp
  | cloneOp
  | checkoutCommitOp
  | branchValidateOp
  | checkoutBranchOp
  | filesOp
  | deleteFileOp (f : String)
  | pruneOp
  | publishOp
  | stageAllOp
  | commitOp
  | publishCommitHashOp
  | createTagOp (t : String)
  | pushTagOp (t : String)
deriving DecidableEq, Repr

/-- Environment of one run: command-line arguments and the results the
external collaborators (git subprocesses, package metadata, URL resolver,
filesystem) would return.  Modelled from the spec: `GitRepo`,
`NodePackage`, `Url` and `spawn` are outside the embedded sources, so their
query results are inputs here; per the source's failure policy each
subprocess either yields these results or fails the whole run. -/
structure Env where
  /-- The `--tag` occurrences (argv.tag). -/
  argvTags : List String
  /-- The `--tag-version` flag. -/
  argvTagVersion : Bool
  /-- The `--dry-run` flag. -/
  argvDryRun : Bool
  /-- The `pkg.config.version` value; the empty string models a missing/empty version
  (JavaScript falsiness at publishtogit.ts line 110). -/
  version : String
  /-- Result of `devRepo.modifiedFiles()`. -/
  modifiedFiles : List String
  /-- Result of `devRepo.untrackedFiles()`. -/
  untrackedFiles : List String
  /-- Result of `devRepo.tags()`. -/
  existingTags : List String
  /-- Result of `devRepo.currentCommitHash()`. -/
  devCommitHash : String
  /-- Whether `Url.fromString(pkg.config.repository.url)` succeeds
  (publishtogit.ts lines 149-153). -/
  urlValid : Bool
  /-- The `repoUrl.replaceProtocol("git+https").toString()` value (line 215). -/
  dependencyUrl : String
  /-- The `userInfo().username` value (line 237). -/
  username : String
  /-- The `new Date()` of `checkoutTempBranch` (line 232). -/
  now : JsDate
  /-- Verdict of `git check-ref-format --allow-onelevel` on a name. -/
  checkRefFormat : String → Bool
  /-- Result of `publishRepo.files()` (tracked files in the clone). -/
  trackedFiles : List String
  /-- Result of `publishRepo.currentCommitHash()` after the publish commit. -/
  publishCommitHash : String
  /-- The `publishRepo.directory.toString()` value (line 197). -/
  cloneDir : String

/-- The tag list assembled by `getInstanceConfig` (publishtogit.ts lines
70-75): the `--tag` occurrences, plus `v<version>` when `--tag-version` was
given. -/
def mainTags (env : Env) : List String :=
  env.argvTags ++ (if env.argvTagVersion then ["v" ++ env.version] else [])

/-- Embedding of `getInstanceConfig` (publishtogit.ts lines 64-90): resolve the tags and
refuse an empty tag list.  (`GitRepo.fromDirectory`/`NodePackage.fromDirectory`
are read-only collaborators resolved before this point.) -/
def getInstanceConfig (env : Env) : Except GitError (Bool × List String) :=
  let tags := mainTags env
  if tags.isEmpty then
    .error (.validationError
      "At least one tag must be applied by using either --tag-version or --tag.")
  else
    .ok (env.argvDryRun, tags)

/-- Embedding of `checkInitialConditions` (publishtogit.ts lines 93-123): no modified
files, no untracked files, a truthy version, and no requested tag already in
the dev repo's tag list; checks run in that order, and the tag-collision
message lists `_.intersection(existingTags, tags).join(", ")`.  Returns the
verdict together with the git queries performed. -/
def checkInitialConditions (env : Env) (tags : List String) :
    Except GitError Unit × List Op :=
  if env.modifiedFiles.length > 0 then
    (.error (.validationError "This repository contains modified files."),
     [Op.modifiedFilesOp])
  else if env.untrackedFiles.length > 0 then
    (.error (.validationError "This repository contains untracked files."),
     [Op.modifiedFilesOp, Op.untrackedFilesOp])
  else if env.version = "" then
    (.error (.validationError "Package does not have a version."),
     [Op.modifiedFilesOp, Op.untrackedFilesOp])
  else
    let alreadyExist := lodashIntersection env.existingTags tags
    if alreadyExist.length > 0 then
      (.error (.validationError
        ("The following tags already exist: " ++ String.intercalate ", " alreadyExist)),
       [Op.modifiedFilesOp, Op.untrackedFilesOp, Op.tagsOp])
    else
      (.ok (), [Op.modifiedFilesOp, Op.untrackedFilesOp, Op.tagsOp])

/-- Embedding of `checkoutTempBranch` (publishtogit.ts lines 230-243): synthesize the
temporary branch name from the base name, the username and the datestamp,
validate it through `GitBranch.create`, then check the branch out
(`repo.checkoutBranch(tmpBranch, true)`). -/
def checkoutTempBranch (env : Env) (baseName : String) :
    Except GitError GitBranch × List Op :=
  let tmpBranchName := tempBranchName baseName env.username env.now
  match GitBranch.create env.checkRefFormat tmpBranchName none with
  | .error e => (.error e, [Op.branchValidateOp])
  | .ok tmpBranch => (.ok tmpBranch, [Op.branchValidateOp, Op.checkoutBranchOp])

/-- The dry-run stop message (publishtogit.ts lines 194-199). -/
def dryRunMessage (cloneDir : String) : String :=
  String.intercalate "\n"
    ["Running in dry-run mode.  The repository in the following temporary directory",
     "has been left ready to push to a public server.",
     cloneDir]

/-- The completion message (publishtogit.ts lines 216-223): `Done.`, the
usage line, one `npm install` reference per tag, and a final `npm install`
reference built from `publishCommitHash.toString()`. -/
def doneMessage (dependencyUrl : String) (tags : List String)
    (publishCommitHashText : String) : String :=
  String.intercalate "\n"
    (["Done.",
      "To include the published library in a Node.js project, execute the following command:"]
     ++ tags.map (fun curTagName => "npm install " ++ dependencyUrl ++ "#" ++ curTagName)
     ++ ["npm install " ++ dependencyUrl ++ "#" ++ publishCommitHashText])

/-- The two terminal states of a successful run. -/
inductive MainResult where
  | dryRunStop (msg : String)
  | done (msg : String)
deriving DecidableEq, Repr

/-- Embedding of `main` (publishtogit.ts lines 126-224): the workflow result (error, or
dry-run stop, or done report) together with the trace of operations started,
in source order.  Each early exit carries exactly the operations fired
before it.  External git operations past validation are modelled as
succeeding; only failures raised by this file's own code (empty tag list,
validation errors, invalid URL, invalid temp branch name) are modelled.
`checkoutCommit` (line 158) and the second `currentCommitHash` (line 182)
are fired but not awaited in the source; the trace records the firing order,
and line 182's result is bound as a still-pending `JsPromise`. -/
def runMain (env : Env) : Except GitError MainResult × List Op :=
  match getInstanceConfig env with
  | .error e => (.error e, [])
  | .ok (dryRun, tags) =>
    match checkInitialConditions env tags with
    | (.error e, trace) => (.error e, trace)
    | (.ok _, trace) =>
      -- line 142: await devRepo.currentCommitHash()
      -- line 146: publishDir.deleteSync()
      let trace := trace ++ [Op.currentCommitHashOp, Op.deletePublishDirOp]
      -- lines 149-153: Url.fromString
      if !env.urlValid then
        (.error (.validationError "Invalid repository URL."), trace)
      else
        -- line 155: await GitRepo.clone; line 158: checkoutCommit (not awaited)
        let trace := trace ++ [Op.cloneOp, Op.checkoutCommitOp]
        match checkoutTempBranch env "publishtogit" with
        | (.error e, trace2) => (.error e, trace ++ trace2)
        | (.ok _, trace2) =>
          -- lines 168-169: deleteTrackedFiles + prune; line 173: pkg.publish;
          -- lines 177-178: stageAll + commit; line 182: currentCommitHash
          -- (not awaited); lines 186-189: createTag fan-out
          let publishCommitHash : JsPromise String := ⟨env.publishCommitHash⟩
          let trace := trace ++ trace2
            ++ [Op.filesOp] ++ env.trackedFiles.map Op.deleteFileOp
            ++ [Op.pruneOp, Op.publishOp, Op.stageAllOp, Op.commitOp,
                Op.publishCommitHashOp]
            ++ tags.map Op.createTagOp
          if dryRun then
            -- lines 192-201: dry-run stop, no pushes
            (.ok (.dryRunStop (dryRunMessage env.cloneDir)), trace)
          else
            -- lines 204-207: pushTag fan-out; lines 215-223: done report
            (.ok (.done (doneMessage env.dependencyUrl tags publishCommitHash.jsToString)),
             trace ++ tags.map Op.pushTagOp)

/-! ## Asynchronous step semantics of `main` (for the ordering guarantee)

`main` is an `async` function: every `await`ed call suspends `main` until
the call's promise settles, while a call that is *not* `await`ed keeps
running concurrently and settles at some later, unconstrained time.  The
model below lists `main`'s calls in program order with their `await` flags
(transcribed from publishtogit.ts), and defines which start/finish event
traces the JavaScript event loop can produce for that list. -/

/-- The asynchronous calls of `main`, one constructor per call site (fan-out
groups appear as one jointly-awaited step). -/
inductive AStep where
  | modifiedQ        -- line 96 (awaited)
  | untrackedQ       -- line 103 (awaited)
  | tagsQ            -- line 116 (awaited)
  | devCommitHashQ   -- line 142 (awaited)
  | deleteDirM       -- line 146 (synchronous)
  | cloneM           -- line 155 (awaited)
  | checkoutCommitM  -- line 158 (NOT awaited)
  | branchValidateM  -- line 240 via GitBranch.create (awaited)
  | checkoutBranchM  -- line 241 (awaited)
  | filesQ           -- line 253 (awaited)
  | deleteFilesM     -- lines 254-258 fan-out (jointly awaited)
  | pruneM           -- line 169 (awaited)
  | publishM         -- line 173 (awaited)
  | stageAllM        -- line 177 (awaited)
  | commitM          -- line 178 (awaited)
  | publishCommitHashQ -- line 182 (NOT awaited)
  | createTagsM      -- lines 186-189 fan-out (jointly awaited)
  | pushTagsM        -- lines 204-207 fan-out (jointly awaited)
deriving DecidableEq, Repr

/-- The calls of `main` in program order, paired with whether the source
`await`s them. -/
def mainSteps : List (AStep × Bool) :=
  [(.modifiedQ, true), (.untrackedQ, true), (.tagsQ, true),
   (.devCommitHashQ, true), (.deleteDirM, true), (.cloneM, true),
   (.checkoutCommitM, false),
   (.branchValidateM, true), (.checkoutBranchM, true),
   (.filesQ, true), (.deleteFilesM, true), (.pruneM, true),
   (.publishM, true), (.stageAllM, true), (.commitM, true),
   (.publishCommitHashQ, false),
   (.createTagsM, true), (.pushTagsM, true)]

/-- A start or finish event of one asynchronous call. -/
inductive Ev where
  | start (op : AStep)
  | finish (op : AStep)
deriving DecidableEq, Repr

/-- Event-loop validity of a trace against a step list: starts occur in
program order; while an awaited call is outstanding no further call starts;
a call fired without `await` may finish at any later point (or after the
trace ends).  `awaiting` is the awaited call `main` is suspended on, and
`pending` are the fired-without-await calls not yet finished. -/
def validFrom : List (AStep × Bool) → Option AStep → List AStep → List Ev → Bool
  | _, _, _, [] => true
  | steps, awaiting, pending, (Ev.start op) :: rest =>
    (match awaiting, steps with
     | none, (o, aw) :: stepsTail =>
       o = op &&
         (if aw then validFrom stepsTail (some op) pending rest
          else validFrom stepsTail none (op :: pending) rest)
     | _, _ => false)
  | steps, awaiting, pending, (Ev.finish op) :: rest =>
    if awaiting = some op then
      validFrom steps none pending rest
    else if pending.contains op then
      validFrom steps awaiting (pending.erase op) rest
    else
      false

/-- The traces the event loop can produce for `main`'s call list. -/
def validMainTrace (t : List Ev) : Bool :=
  validFrom mainSteps none [] t

/-- A concrete event-loop trace of a run of `main`: every awaited call up to
the clone finishes before the next starts, `checkoutCommit` is started, and
— because line 158 does not `await` it — `main` proceeds to start the
temporary-branch validation while the checkout subprocess is still
running. -/
def raceTrace : List Ev :=
  [.start .modifiedQ, .finish .modifiedQ,
   .start .untrackedQ, .finish .untrackedQ,
   .start .tagsQ, .finish .tagsQ,
   .start .devCommitHashQ, .finish .devCommitHashQ,
   .start .deleteDirM, .finish .deleteDirM,
   .start .cloneM, .finish .cloneM,
   .start .checkoutCommitM,
   .start .branchValidateM]

/-! ## Helper lemmas -/

/-- Numeric description of `isWordSlash`. -/
theorem isWordSlash_toNat {c : Char} (h : isWordSlash c = true) :
    (97 ≤ c.toNat ∧ c.toNat ≤ 122) ∨ (65 ≤ c.toNat ∧ c.toNat ≤ 90) ∨
    (48 ≤ c.toNat ∧ c.toNat ≤ 57) ∨ c.toNat = 95 ∨ c.toNat = 47 := by
  simp only [isWordSlash, isWordChar, Bool.or_eq_true, Bool.and_eq_true,
    decide_eq_true_eq] at h
  rcases h with (((⟨h1, h2⟩ | ⟨h1, h2⟩) | ⟨h1, h2⟩) | h1) | h1
  · exact Or.inl ⟨h1, h2⟩
  · exact Or.inr (Or.inl ⟨h1, h2⟩)
  · exact Or.inr (Or.inr (Or.inl ⟨h1, h2⟩))
  · subst h1; simp
  · subst h1; simp

/-- Numeric description of `jsWhitespace`. -/
theorem jsWhitespace_toNat {c : Char} (h : jsWhitespace c = true) :
    c.toNat = 32 ∨ c.toNat = 9 ∨ c.toNat = 10 ∨ c.toNat = 11 ∨
    c.toNat = 12 ∨ c.toNat = 13 ∨ 160 ≤ c.toNat := by
  simp only [jsWhitespace, Bool.or_eq_true, Bool.and_eq_true, decide_eq_true_eq] at h
  rcases h with (((((((((((((h | h) | h) | h) | h) | h) | h) | h) | ⟨h1, h2⟩) | h) | h) | h) | h) | h) | h
  all_goals first
    | (subst h; decide)
    | (have h8 : (8192 : Nat) ≤ c.toNat := h1
       omega)

/-- A `[\w/]` character is not JavaScript whitespace. -/
theorem isWordSlash_not_ws {c : Char} (h : isWordSlash c = true) :
    jsWhitespace c = false := by
  cases hw : jsWhitespace c with
  | false => rfl
  | true =>
    exfalso
    have a := isWordSlash_toNat h
    have b := jsWhitespace_toNat hw
    omega

/-- A `[\w/]` character is neither `*` nor a newline. -/
theorem isWordSlash_ne_star_nl {c : Char} (h : isWordSlash c = true) :
    c ≠ '*' ∧ c ≠ '\n' := by
  have a := isWordSlash_toNat h
  constructor <;> rintro rfl <;> revert a <;> decide

/-- Evaluation of `Validator.isValid` on the empty validator list. -/
theorem Validator.isValid_nil {α : Type} (subject : α) :
    Validator.isValid ([] : List (α → PredResult)) subject = true := by
  simp [Validator.isValid, List.mapM_nil]; rfl

/-- One-step unfolding of `Validator.isValid`. -/
theorem Validator.isValid_cons {α : Type} (f : α → PredResult)
    (fs : List (α → PredResult)) (subject : α) :
    Validator.isValid (f :: fs) subject =
      (match f subject with
       | .error _ => false
       | .ok b => b && Validator.isValid fs subject) := by
  unfold Validator.isValid
  rw [List.mapM_cons]
  cases hf : f subject with
  | error e => cases e; rfl
  | ok b =>
    cases hm : fs.mapM (fun g => g subject) with
    | error e => cases e; simp [Bind.bind, Except.bind]
    | ok bs => simp [Bind.bind, Except.bind, pure, Except.pure, List.all_cons]

/-- The function `dropWhile` keeps a list whose head fails the predicate. -/
theorem dropWhile_eq_self_of_head {p : Char → Bool} :
    ∀ {l : List Char}, (∀ c ∈ l.head?, p c = false) → l.dropWhile p = l := by
  intro l h
  cases l with
  | nil => rfl
  | cons c rest =>
    have hc : p c = false := h c rfl
    simp [List.dropWhile_cons, hc]

/-- The function `jsTrim` keeps a string whose two ends are not whitespace. -/
theorem jsTrim_eq_self {x y : Char} {mid : List Char}
    (hx : jsWhitespace x = false) (hy : jsWhitespace y = false) :
    jsTrim (x :: (mid ++ [y])) = x :: (mid ++ [y]) := by
  have h1 : (x :: (mid ++ [y])).dropWhile jsWhitespace = x :: (mid ++ [y]) :=
    dropWhile_eq_self_of_head (by intro c hc; simp at hc; subst hc; exact hx)
  have h2 : (y :: (mid.reverse ++ [x])).dropWhile jsWhitespace = y :: (mid.reverse ++ [x]) :=
    dropWhile_eq_self_of_head (by intro c hc; simp at hc; subst hc; exact hy)
  have h3 : (x :: (mid ++ [y])).reverse = y :: (mid.reverse ++ [x]) := by simp
  unfold jsTrim
  rw [h1, h3, h2]
  simp

/-- The function `stripCurrentMarker` keeps a line that does not start with `*`. -/
theorem stripCurrentMarker_eq_self {x : Char} (hx : x ≠ '*') (rest : List Char) :
    stripCurrentMarker (x :: rest) = x :: rest := by
  cases rest with
  | nil => rfl
  | cons c1 r => simp [stripCurrentMarker, hx]

/-- Splitting on a character absent from the list yields the singleton. -/
theorem splitOnChar_eq_single {sep : Char} :
    ∀ {l : List Char}, (∀ c ∈ l, c ≠ sep) → splitOnChar sep l = [l] := by
  intro l h
  induction l with
  | nil => rfl
  | cons c rest ih =>
    have hc : c ≠ sep := h c (by simp)
    have hr : splitOnChar sep rest = [rest] := ih (fun d hd => h d (by simp [hd]))
    simp [splitOnChar, hc, hr]

/-- The `\s+->\s+[\w/]+$` tail matches ` -> ` followed by a nonempty
`[\w/]` run. -/
theorem matchHeadTail_arrow {b : List Char} (hb : b ≠ [])
    (hwb : b.all isWordSlash = true) :
    matchHeadTail (' ' :: '-' :: '>' :: ' ' :: b) = true := by
  have hb' : b.dropWhile jsWhitespace = b := by
    apply dropWhile_eq_self_of_head
    intro c hc
    cases b with
    | nil => simp at hc
    | cons y t =>
      simp at hc
      subst hc
      simp [List.all_cons] at hwb
      exact isWordSlash_not_ws hwb.1
  simp only [matchHeadTail]
  rw [show ('-' :: '>' :: ' ' :: b).dropWhile jsWhitespace = '-' :: '>' :: ' ' :: b from
    dropWhile_eq_self_of_head (by intro c hc; simp at hc; subst hc; decide)]
  simp [hb', hwb, hb, (by decide : jsWhitespace ' ' = true)]

/-- The `[\w/]+` head of the filter regex can end at any `/HEAD` occurrence. -/
theorem matchFilterAfterOne_append {tail : List Char} (ht : matchHeadTail tail = true) :
    ∀ (a : List Char), a.all isWordSlash = true →
    matchFilterAfterOne (a ++ '/' :: 'H' :: 'E' :: 'A' :: 'D' :: tail) = true := by
  intro a
  induction a with
  | nil => intro _; simp [matchFilterAfterOne, ht]
  | cons c r ih =>
    intro h
    simp only [List.all_cons, Bool.and_eq_true] at h
    simp [matchFilterAfterOne, ih h.2, h.1]

/-- The noise filter discards every line of the shape
`<lhs>/HEAD -> <rhs>` whose `<lhs>` and `<rhs>` consist of `[\w/]`
characters. -/
theorem filterHeadLine_true {a b : List Char} (ha : a ≠ []) (hb : b ≠ [])
    (hwa : a.all isWordSlash = true) (hwb : b.all isWordSlash = true) :
    filterHeadLine (a ++ '/' :: 'H' :: 'E' :: 'A' :: 'D' :: ' ' :: '-' :: '>' :: ' ' :: b)
      = true := by
  have ht := matchHeadTail_arrow hb hwb
  cases a with
  | nil => exact absurd rfl ha
  | cons x r =>
    simp only [List.all_cons, Bool.and_eq_true] at hwa
    simp [filterHeadLine, hwa.1, matchFilterAfterOne_append ht r hwa.2]

/-! ## Claims -/

/-- C1: the claim states that the checkout of the source revision in the
clone completes before the temporary-branch creation begins.  The code fires
`checkoutCommit` at publishtogit.ts line 158 without `await`, so the event
loop admits the run `raceTrace`, in which branch validation starts while the
checkout subprocess has not finished (indeed never finishes inside the
trace): the documented ordering guarantee does not hold on this execution of
the code. -/
theorem main_checkoutCommit_race :
    validMainTrace raceTrace = true
    ∧ Ev.start AStep.branchValidateM ∈ raceTrace
    ∧ Ev.finish AStep.checkoutCommitM ∉ raceTrace := by
  decide

/-- C2: `Validator.isValid` resolves to `true` iff every predicate evaluates
to `true` on the subject; if any predicate rejects, the aggregate is `false`
(fail-closed).  `isValid` itself never rejects: in this embedding it is a
total boolean-valued function. -/
theorem validator_isValid_spec {α : Type} (validatorFuncs : List (α → PredResult))
    (subject : α) :
    (Validator.isValid validatorFuncs subject = true ↔
      ∀ f ∈ validatorFuncs, f subject = .ok true)
    ∧ ((∃ f ∈ validatorFuncs, f subject = .error ()) →
        Validator.isValid validatorFuncs subject = false) := by
  have hiff : Validator.isValid validatorFuncs subject = true ↔
      ∀ f ∈ validatorFuncs, f subject = .ok true := by
    induction validatorFuncs with
    | nil => simp [Validator.isValid_nil]
    | cons f fs ih =>
      rw [Validator.isValid_cons]
      cases hf : f subject with
      | error e =>
        simp only [Bool.false_eq_true, false_iff]
        intro hall
        have hcontra := hall f (List.mem_cons_self f fs)
        rw [hf] at hcontra
        exact Except.noConfusion hcontra
      | ok b =>
        simp [Bool.and_eq_true, ih, List.forall_mem_cons, hf]
  refine ⟨hiff, ?_⟩
  rintro ⟨f, hmem, herr⟩
  cases hv : Validator.isValid validatorFuncs subject with
  | false => rfl
  | true =>
    have hok := hiff.mp hv f hmem
    rw [hok] at herr
    exact Except.noConfusion herr

/-- Witness for C2 at concrete inputs: a list of two fulfilled-true
predicates validates, and a singleton rejecting predicate yields `false`. -/
theorem validator_isValid_spec_witness :
    Validator.isValid [fun n : Nat => .ok (n == 0), fun _ : Nat => .ok true] 0 = true
    ∧ Validator.isValid [fun _ : Nat => (.error () : PredResult)] 0 = false := by
  constructor
  · apply (validator_isValid_spec [fun n : Nat => .ok (n == 0), fun _ : Nat => .ok true] 0).1.mpr
    intro f hf
    rcases List.mem_cons.mp hf with rfl | hf2
    · rfl
    · rcases List.mem_cons.mp hf2 with rfl | hf3
      · rfl
      · exact absurd hf3 (List.not_mem_nil f)
  · apply (validator_isValid_spec [fun _ : Nat => (.error () : PredResult)] 0).2
    exact ⟨fun _ => .error (), List.mem_cons_self _ _, rfl⟩

/-- C7: when the external branch-name validation fails, `GitBranch.create`
fails with the invalid-branch-name error, which is a different error class
than a subprocess `ProcessError`; when validation succeeds, it returns a
`GitBranch` carrying exactly the requested name. -/
theorem gitBranch_create_spec (checkRefFormat : String → Bool) (branchName : String)
    (remoteName : Option String) :
    (checkRefFormat branchName = false →
      GitBranch.create checkRefFormat branchName remoteName =
        .error (.invalidBranchName
          ("Cannot create GitBranch instance from invalid branch name " ++ branchName ++ "."))
      ∧ ∀ msg exitCode stderr,
          (GitError.invalidBranchName msg) ≠ GitError.processError exitCode stderr)
    ∧ (checkRefFormat branchName = true →
        ∃ b, GitBranch.create checkRefFormat branchName remoteName = .ok b ∧
          b.name = branchName) := by
  have hval : Validator.isValid [GitBranch.isValidBranchName checkRefFormat] branchName
      = checkRefFormat branchName := by
    rw [Validator.isValid_cons]
    simp [GitBranch.isValidBranchName, Validator.isValid_nil]
  constructor
  · intro hf
    refine ⟨?_, by intro msg ec st; simp⟩
    simp [GitBranch.create, hval, hf]
  · intro ht
    refine ⟨mkGitBranch branchName remoteName, ?_, rfl⟩
    simp [GitBranch.create, hval, ht]

/-- Witness for C7 at concrete inputs. -/
theorem gitBranch_create_spec_witness :
    (GitBranch.create (fun _ => false) "bad..name" none =
      .error (.invalidBranchName
        "Cannot create GitBranch instance from invalid branch name bad..name."))
    ∧ ∃ b, GitBranch.create (fun _ => true) "feature/x" none = .ok b ∧
        b.name = "feature/x" := by
  constructor
  · exact ((gitBranch_create_spec (fun _ => false) "bad..name" none).1 rfl).1
  · exact (gitBranch_create_spec (fun _ => true) "feature/x" none).2 rfl

/-- C9, counterexample: the claim says the temporary branch name is built
from a timestamp with one-second granularity; but `checkoutTempBranch`
appends `getMilliseconds()` to the datestamp, so two instants within the
same second (differing only in milliseconds) yield different branch names —
the name is not a function of the one-second timestamp. -/
theorem tempBranchName_subsecond_differs :
    (JsDate.mk 2018 0 15 10 30 5 0).year = (JsDate.mk 2018 0 15 10 30 5 1).year
    ∧ (JsDate.mk 2018 0 15 10 30 5 0).month = (JsDate.mk 2018 0 15 10 30 5 1).month
    ∧ (JsDate.mk 2018 0 15 10 30 5 0).date = (JsDate.mk 2018 0 15 10 30 5 1).date
    ∧ (JsDate.mk 2018 0 15 10 30 5 0).hours = (JsDate.mk 2018 0 15 10 30 5 1).hours
    ∧ (JsDate.mk 2018 0 15 10 30 5 0).minutes = (JsDate.mk 2018 0 15 10 30 5 1).minutes
    ∧ (JsDate.mk 2018 0 15 10 30 5 0).seconds = (JsDate.mk 2018 0 15 10 30 5 1).seconds
    ∧ tempBranchName "publishtogit" "kwpeters" (JsDate.mk 2018 0 15 10 30 5 0) ≠
        tempBranchName "publishtogit" "kwpeters" (JsDate.mk 2018 0 15 10 30 5 1) := by
  refine ⟨rfl, rfl, rfl, rfl, rfl, rfl, ?_⟩
  decide

/-- C9, amended: the temporary branch name is synthesized from exactly the
fixed base name, the invoking user's identity, and a timestamp with
one-**millisecond** granularity (the name depends on nothing but those
inputs); the name is validated through `GitBranch.create` before the branch
checkout: on success the run is validation followed by checkout, and on
validation failure the checkout is never started. -/
theorem checkoutTempBranch_spec (env : Env) (baseName : String) :
    (∀ d1 d2 : JsDate, d1.year = d2.year → d1.month = d2.month →
      d1.date = d2.date → d1.hours = d2.hours → d1.minutes = d2.minutes →
      d1.seconds = d2.seconds → d1.ms = d2.ms →
      tempBranchName baseName env.username d1 = tempBranchName baseName env.username d2)
    ∧ (env.checkRefFormat (tempBranchName baseName env.username env.now) = true →
        checkoutTempBranch env baseName =
          (.ok (mkGitBranch (tempBranchName baseName env.username env.now) none),
           [Op.branchValidateOp, Op.checkoutBranchOp]))
    ∧ (env.checkRefFormat (tempBranchName baseName env.username env.now) = false →
        (checkoutTempBranch env baseName).2 = [Op.branchValidateOp]) := by
  have hval : Validator.isValid
      [GitBranch.isValidBranchName env.checkRefFormat]
      (tempBranchName baseName env.username env.now)
      = env.checkRefFormat (tempBranchName baseName env.username env.now) := by
    rw [Validator.isValid_cons]
    simp [GitBranch.isValidBranchName, Validator.isValid_nil]
  refine ⟨?_, ?_, ?_⟩
  · intro d1 d2 h1 h2 h3 h4 h5 h6 h7
    cases d1
    cases d2
    simp only at h1 h2 h3 h4 h5 h6 h7
    subst h1; subst h2; subst h3; subst h4; subst h5; subst h6; subst h7
    rfl
  · intro ht
    simp [checkoutTempBranch, GitBranch.create, hval, ht]
  · intro hf
    simp [checkoutTempBranch, GitBranch.create, hval, hf]

/-- Witness for C9's amended theorem at a concrete environment. -/
theorem checkoutTempBranch_spec_witness :
    tempBranchName "publishtogit" "kwpeters" (JsDate.mk 2018 0 15 10 30 5 123) =
      tempBranchName "publishtogit" "kwpeters" (JsDate.mk 2018 0 15 10 30 5 123)
    ∧ checkoutTempBranch
        { argvTags := ["1.0.0"], argvTagVersion := false, argvDryRun := false,
          version := "1.2.3", modifiedFiles := [], untrackedFiles := [],
          existingTags := [], devCommitHash := "d00d", urlValid := true,
          dependencyUrl := "git+https://example.com/r", username := "kwpeters",
          now := JsDate.mk 2018 0 15 10 30 5 123,
          checkRefFormat := fun _ => true, trackedFiles := [],
          publishCommitHash := "beef", cloneDir := "/tmp/r" } "publishtogit" =
        (.ok (mkGitBranch
          (tempBranchName "publishtogit" "kwpeters" (JsDate.mk 2018 0 15 10 30 5 123)) none),
         [Op.branchValidateOp, Op.checkoutBranchOp]) := by
  constructor
  · exact (checkoutTempBranch_spec
      { argvTags := ["1.0.0"], argvTagVersion := false, argvDryRun := false,
        version := "1.2.3", modifiedFiles := [], untrackedFiles := [],
        existingTags := [], devCommitHash := "d00d", urlValid := true,
        dependencyUrl := "git+https://example.com/r", username := "kwpeters",
        now := JsDate.mk 2018 0 15 10 30 5 123,
        checkRefFormat := fun _ => true, trackedFiles := [],
        publishCommitHash := "beef", cloneDir := "/tmp/r" } "publishtogit").1
      (JsDate.mk 2018 0 15 10 30 5 123) (JsDate.mk 2018 0 15 10 30 5 123)
      rfl rfl rfl rfl rfl rfl rfl
  · exact (checkoutTempBranch_spec
      { argvTags := ["1.0.0"], argvTagVersion := false, argvDryRun := false,
        version := "1.2.3", modifiedFiles := [], untrackedFiles := [],
        existingTags := [], devCommitHash := "d00d", urlValid := true,
        dependencyUrl := "git+https://example.com/r", username := "kwpeters",
        now := JsDate.mk 2018 0 15 10 30 5 123,
        checkRefFormat := fun _ => true, trackedFiles := [],
        publishCommitHash := "beef", cloneDir := "/tmp/r" } "publishtogit").2.1 rfl

/-- C10, counterexample: the claim says the anchored parsing pattern matches
every input string.  JavaScript `.` does not match a carriage return, so the
line `a\rb` — which also survives trimming, marker stripping, and the noise
filter — fails `strParserRegex`, and enumeration hits the fatal parse-error
branch. -/
theorem strParser_cr_line_fatal :
    strParserExec ['a', '\r', 'b'] = none
    ∧ filterHeadLine (stripCurrentMarker (jsTrim ['a', '\r', 'b'])) = false
    ∧ GitBranch.enumerateGitRepoBranches (String.mk ['a', '\r', 'b']) =
        .error (.parseError
          ("Error: Branch \"" ++ String.mk ['a', '\r', 'b'] ++
           "\" could not be parsed by enumerateGitRepoBranches().")) := by
  refine ⟨rfl, rfl, rfl⟩

/-- C10, amended: `strParserRegex` matches every input string containing no
JavaScript LineTerminator (the `remotes/<remote>/` prefix is optional and
`(.*)` matches any other character), so for every branch-listing line free
of line terminators — in particular every line split out of subprocess
output on `\n` that contains no stray `\r` — the fatal parse-error branch of
`enumerateGitRepoBranches` is unreachable. -/
theorem strParser_total_no_terminator (l : List Char)
    (h : l.any isJsLineTerminator = false) :
    (strParserExec l).isSome = true ∧ ∃ br, parseBranchLine l = .ok br := by
  have hsome : (strParserExec l).isSome = true := by
    simp [strParserExec, h]
  refine ⟨hsome, ?_⟩
  cases hm : strParserExec l with
  | none => rw [hm] at hsome; exact Bool.noConfusion hsome
  | some p =>
    cases p with
    | mk remoteName branchName =>
      exact ⟨mkGitBranch (String.mk branchName) (remoteName.map String.mk),
        by simp [parseBranchLine, hm]⟩

/-- Witness for C10's amended theorem: the current-branch line `* main`
parses (after marker stripping) without reaching the fatal branch. -/
theorem strParser_total_no_terminator_witness :
    (strParserExec ['m', 'a', 'i', 'n']).isSome = true
    ∧ ∃ br, parseBranchLine ['m', 'a', 'i', 'n'] = .ok br :=
  strParser_total_no_terminator ['m', 'a', 'i', 'n'] rfl

/-- C5, counterexample: the claim quantifies over every remote name, but a
remote name containing `-` defeats the `[\w/]+` classes of the noise-filter
regex, so the symbolic-reference line
`my-remote/HEAD -> my-remote/master` (remote `my-remote`, branch `master`)
survives the filter and *does* produce a `BranchName` — the whole line
becomes the branch name. -/
theorem enumerate_dashed_remote_head_line :
    GitBranch.enumerateGitRepoBranches "my-remote/HEAD -> my-remote/master" =
      .ok [{ name := "my-remote/HEAD -> my-remote/master", remoteName := none }] := by
  rfl

/-- C5, amended: for every `<lhs>` and `<rhs>` consisting only of word
characters (`[A-Za-z0-9_]`) and slashes — which covers every line
`<remote>/HEAD -> <remote>/<branch>` whose remote and branch names are word
characters and slashes, and in particular the real git output line
`remotes/origin/HEAD -> origin/master` — the line `<lhs>/HEAD -> <rhs>` is
discarded by `enumerateGitRepoBranches` and never produces a `BranchName`. -/
theorem headLine_discarded_wordslash (a b : List Char) (ha : a ≠ []) (hb : b ≠ [])
    (hwa : a.all isWordSlash = true) (hwb : b.all isWordSlash = true) :
    GitBranch.enumerateGitRepoBranches
      (String.mk (a ++ '/' :: 'H' :: 'E' :: 'A' :: 'D' :: ' ' :: '-' :: '>' :: ' ' :: b))
      = .ok [] := by
  have hfilter := filterHeadLine_true ha hb hwa hwb
  have hnl : ∀ c ∈ a ++ '/' :: 'H' :: 'E' :: 'A' :: 'D' :: ' ' :: '-' :: '>' :: ' ' :: b,
      c ≠ '\n' := by
    intro c hc
    rcases List.mem_append.mp hc with hca | hcs
    · exact (isWordSlash_ne_star_nl (List.all_eq_true.mp hwa c hca)).2
    · simp only [List.mem_cons] at hcs
      rcases hcs with rfl | rfl | rfl | rfl | rfl | rfl | rfl | rfl | rfl | hcb
      · decide
      · decide
      · decide
      · decide
      · decide
      · decide
      · decide
      · decide
      · decide
      · exact (isWordSlash_ne_star_nl (List.all_eq_true.mp hwb c hcb)).2
  have hsplit := splitOnChar_eq_single hnl
  cases a with
  | nil => exact absurd rfl ha
  | cons x a2 =>
    rcases List.eq_nil_or_concat b with rfl | ⟨bi, y, hby⟩
    · exact absurd rfl hb
    · rw [List.concat_eq_append] at hby
      subst hby
      have hx : isWordSlash x = true := by
        simp only [List.all_cons, Bool.and_eq_true] at hwa
        exact hwa.1
      have hy : isWordSlash y = true :=
        List.all_eq_true.mp hwb y
          (List.mem_append.mpr (Or.inr (List.mem_singleton.mpr rfl)))
      have hform : (x :: a2) ++ '/' :: 'H' :: 'E' :: 'A' :: 'D' :: ' ' :: '-' :: '>' :: ' '
            :: (bi ++ [y])
          = x :: ((a2 ++ ('/' :: 'H' :: 'E' :: 'A' :: 'D' :: ' ' :: '-' :: '>' :: ' ' :: bi))
              ++ [y]) := by
        simp
      have htrim : jsTrim ((x :: a2) ++ '/' :: 'H' :: 'E' :: 'A' :: 'D' :: ' ' :: '-' :: '>'
            :: ' ' :: (bi ++ [y]))
          = (x :: a2) ++ '/' :: 'H' :: 'E' :: 'A' :: 'D' :: ' ' :: '-' :: '>' :: ' '
            :: (bi ++ [y]) := by
        rw [hform]
        exact jsTrim_eq_self (isWordSlash_not_ws hx) (isWordSlash_not_ws hy)
      have hstrip : stripCurrentMarker ((x :: a2) ++ '/' :: 'H' :: 'E' :: 'A' :: 'D' :: ' '
            :: '-' :: '>' :: ' ' :: (bi ++ [y]))
          = (x :: a2) ++ '/' :: 'H' :: 'E' :: 'A' :: 'D' :: ' ' :: '-' :: '>' :: ' '
            :: (bi ++ [y]) := by
        rw [List.cons_append]
        exact stripCurrentMarker_eq_self (isWordSlash_ne_star_nl hx).1 _
      simp only [List.cons_append] at htrim hstrip hfilter
      simp only [GitBranch.enumerateGitRepoBranches, String.toList]
      rw [hsplit]
      simp [htrim, hstrip, hfilter]
      rfl

/-- Witness for C5's amended theorem: the real git output line
`remotes/origin/HEAD -> origin/master` produces no `BranchName`. -/
theorem headLine_discarded_wordslash_witness :
    GitBranch.enumerateGitRepoBranches
      (String.mk (['r', 'e', 'm', 'o', 't', 'e', 's', '/', 'o', 'r', 'i', 'g', 'i', 'n']
        ++ '/' :: 'H' :: 'E' :: 'A' :: 'D' :: ' ' :: '-' :: '>' :: ' '
          :: ['o', 'r', 'i', 'g', 'i', 'n', '/', 'm', 'a', 's', 't', 'e', 'r']))
      = .ok [] :=
  headLine_discarded_wordslash
    ['r', 'e', 'm', 'o', 't', 'e', 's', '/', 'o', 'r', 'i', 'g', 'i', 'n']
    ['o', 'r', 'i', 'g', 'i', 'n', '/', 'm', 'a', 's', 't', 'e', 'r']
    (by decide) (by decide) (by decide) (by decide)

/-- C3: for every source repository with at least one modified or untracked
file, the run fails with a validation error, and the only operations ever
started are the two status queries — no clone-related subprocess and no
mutating operation is invoked. -/
theorem validate_dirty_fails_before_clone (env : Env)
    (h : env.modifiedFiles ≠ [] ∨ env.untrackedFiles ≠ []) :
    (∃ e, (runMain env).1 = .error e)
    ∧ ∀ op ∈ (runMain env).2, op = Op.modifiedFilesOp ∨ op = Op.untrackedFilesOp := by
  cases hcfg : getInstanceConfig env with
  | error e =>
    constructor
    · exact ⟨e, by simp [runMain, hcfg]⟩
    · intro op hop
      simp [runMain, hcfg] at hop
  | ok pr =>
    obtain ⟨dryRun, tags⟩ := pr
    cases hm : env.modifiedFiles with
    | cons c cs =>
      have hcic : checkInitialConditions env tags =
          (.error (.validationError "This repository contains modified files."),
           [Op.modifiedFilesOp]) := by
        simp [checkInitialConditions, hm]
      constructor
      · exact ⟨GitError.validationError "This repository contains modified files.",
          by simp [runMain, hcfg, hcic]⟩
      · intro op hop
        simp [runMain, hcfg, hcic] at hop
        simp [hop]
    | nil =>
      have hu : env.untrackedFiles ≠ [] := by
        rcases h with hm2 | hu2
        · exact absurd hm hm2
        · exact hu2
      have hu2 : env.untrackedFiles.length > 0 := List.length_pos.mpr hu
      have hcic : checkInitialConditions env tags =
          (.error (.validationError "This repository contains untracked files."),
           [Op.modifiedFilesOp, Op.untrackedFilesOp]) := by
        simp [checkInitialConditions, hm, hu2]
      constructor
      · exact ⟨GitError.validationError "This repository contains untracked files.",
          by simp [runMain, hcfg, hcic]⟩
      · intro op hop
        simp [runMain, hcfg, hcic] at hop
        rcases hop with rfl | rfl
        · simp
        · simp

/-- A concrete dirty repository for the C3 witness. -/
def c3Env : Env :=
  { argvTags := ["1.0.0"], argvTagVersion := false, argvDryRun := false,
    version := "1.2.3", modifiedFiles := ["src/index.ts"], untrackedFiles := [],
    existingTags := [], devCommitHash := "d00dfeed01", urlValid := true,
    dependencyUrl := "git+https://github.com/kwpeters/sample", username := "kwpeters",
    now := JsDate.mk 2018 0 15 10 30 5 123,
    checkRefFormat := fun _ => true, trackedFiles := ["a.txt"],
    publishCommitHash := "a1b2c3d4e5f6", cloneDir := "/tmp/publish/sample" }

/-- Witness for C3 at a repository with one modified file. -/
theorem validate_dirty_fails_before_clone_witness :
    (∃ e, (runMain c3Env).1 = .error e)
    ∧ ∀ op ∈ (runMain c3Env).2, op = Op.modifiedFilesOp ∨ op = Op.untrackedFilesOp :=
  validate_dirty_fails_before_clone c3Env (Or.inl (by decide))

/-- C4: when the requested tags intersect the source repository's existing
tags (and the earlier working-tree and version preconditions hold, so the
tag check is the one that fires), validation fails and the error message
names exactly the lodash intersection of the two tag lists. -/
theorem validate_tag_collision_message (env : Env) (tags : List String)
    (h1 : env.modifiedFiles = []) (h2 : env.untrackedFiles = [])
    (h3 : env.version ≠ "") (h4 : lodashIntersection env.existingTags tags ≠ []) :
    (checkInitialConditions env tags).1 =
      .error (.validationError
        ("The following tags already exist: " ++
         String.intercalate ", " (lodashIntersection env.existingTags tags))) := by
  have hlen : (lodashIntersection env.existingTags tags).length > 0 :=
    List.length_pos.mpr h4
  simp [checkInitialConditions, h1, h2, h3, hlen]

/-- A repository whose tag list collides with one requested tag (C4). -/
def c4Env : Env :=
  { argvTags := ["v1.0.0", "latest"], argvTagVersion := false, argvDryRun := false,
    version := "1.0.0", modifiedFiles := [], untrackedFiles := [],
    existingTags := ["v0.9.0", "v1.0.0"], devCommitHash := "d00dfeed01", urlValid := true,
    dependencyUrl := "git+https://github.com/kwpeters/sample", username := "kwpeters",
    now := JsDate.mk 2018 0 15 10 30 5 123,
    checkRefFormat := fun _ => true, trackedFiles := ["a.txt"],
    publishCommitHash := "a1b2c3d4e5f6", cloneDir := "/tmp/publish/sample" }

/-- Witness for C4: requesting `v1.0.0` and `latest` against existing tags
`v0.9.0`, `v1.0.0` fails naming exactly `v1.0.0`. -/
theorem validate_tag_collision_message_witness :
    (checkInitialConditions c4Env ["v1.0.0", "latest"]).1 =
      .error (.validationError
        ("The following tags already exist: " ++
         String.intercalate ", " (lodashIntersection c4Env.existingTags ["v1.0.0", "latest"]))) :=
  validate_tag_collision_message c4Env ["v1.0.0", "latest"] rfl rfl
    (by decide) (by decide)

/-- C6: in dry-run mode, a run that passes validation creates all requested
tags locally in the clone (one `createTag` per tag), terminates in the
dry-run stop state, and starts zero push operations. -/
theorem main_dryRun_no_push (env : Env)
    (h1 : env.modifiedFiles = []) (h2 : env.untrackedFiles = [])
    (h3 : env.version ≠ "")
    (h4 : lodashIntersection env.existingTags (mainTags env) = [])
    (h5 : mainTags env ≠ [])
    (h6 : env.urlValid = true)
    (h7 : env.checkRefFormat (tempBranchName "publishtogit" env.username env.now) = true)
    (h8 : env.argvDryRun = true) :
    (runMain env).1 = .ok (.dryRunStop (dryRunMessage env.cloneDir))
    ∧ (∀ t, Op.pushTagOp t ∉ (runMain env).2)
    ∧ ∀ t ∈ mainTags env, Op.createTagOp t ∈ (runMain env).2 := by
  have h5i : (mainTags env).isEmpty = false := by
    cases hmt : mainTags env with
    | nil => exact absurd hmt h5
    | cons a l => rfl
  have hcfg : getInstanceConfig env = .ok (env.argvDryRun, mainTags env) := by
    simp [getInstanceConfig, h5i]
  have hcic : checkInitialConditions env (mainTags env) =
      (.ok (), [Op.modifiedFilesOp, Op.untrackedFilesOp, Op.tagsOp]) := by
    simp [checkInitialConditions, h1, h2, h3, h4]
  have hval : Validator.isValid [GitBranch.isValidBranchName env.checkRefFormat]
      (tempBranchName "publishtogit" env.username env.now)
      = env.checkRefFormat (tempBranchName "publishtogit" env.username env.now) := by
    rw [Validator.isValid_cons]
    simp [GitBranch.isValidBranchName, Validator.isValid_nil]
  have hctb : checkoutTempBranch env "publishtogit" =
      (.ok (mkGitBranch (tempBranchName "publishtogit" env.username env.now) none),
       [Op.branchValidateOp, Op.checkoutBranchOp]) := by
    simp [checkoutTempBranch, GitBranch.create, hval, h7]
  have htr : (runMain env).2 =
      ([Op.modifiedFilesOp, Op.untrackedFilesOp, Op.tagsOp, Op.currentCommitHashOp,
        Op.deletePublishDirOp, Op.cloneOp, Op.checkoutCommitOp, Op.branchValidateOp,
        Op.checkoutBranchOp, Op.filesOp] ++ env.trackedFiles.map Op.deleteFileOp
        ++ [Op.pruneOp, Op.publishOp, Op.stageAllOp, Op.commitOp, Op.publishCommitHashOp])
        ++ (mainTags env).map Op.createTagOp := by
    simp [runMain, hcfg, hcic, hctb, h6, h8]
  refine ⟨?_, ?_, ?_⟩
  · simp [runMain, hcfg, hcic, hctb, h6, h8]
  · intro t
    rw [htr]
    simp [List.mem_append, List.mem_map]
  · intro t ht
    rw [htr]
    exact List.mem_append.mpr (Or.inr (List.mem_map.mpr ⟨t, ht, rfl⟩))

/-- A clean dry-run environment requesting two explicit tags (C6). -/
def c6Env : Env :=
  { argvTags := ["1.0.0", "latest"], argvTagVersion := false, argvDryRun := true,
    version := "1.2.3", modifiedFiles := [], untrackedFiles := [],
    existingTags := ["v0.9.0"], devCommitHash := "d00dfeed01", urlValid := true,
    dependencyUrl := "git+https://github.com/kwpeters/sample", username := "kwpeters",
    now := JsDate.mk 2018 0 15 10 30 5 123,
    checkRefFormat := fun _ => true, trackedFiles := ["a.txt", "b.txt"],
    publishCommitHash := "a1b2c3d4e5f6", cloneDir := "/tmp/publish/sample" }

/-- Witness for C6: a dry run with two explicit tags creates both tags and
pushes none. -/
theorem main_dryRun_no_push_witness :
    (runMain c6Env).1 = .ok (.dryRunStop (dryRunMessage c6Env.cloneDir))
    ∧ (∀ t, Op.pushTagOp t ∉ (runMain c6Env).2)
    ∧ ∀ t ∈ mainTags c6Env, Op.createTagOp t ∈ (runMain c6Env).2 :=
  main_dryRun_no_push c6Env rfl rfl (by decide) (by decide) (by decide) rfl rfl rfl

/-- A clean non-dry-run environment used to exercise the Done report (C8). -/
def c8Env : Env :=
  { argvTags := ["1.0.0"], argvTagVersion := false, argvDryRun := false,
    version := "1.2.3", modifiedFiles := [], untrackedFiles := [],
    existingTags := [], devCommitHash := "d00dfeed01", urlValid := true,
    dependencyUrl := "git+https://github.com/kwpeters/sample", username := "kwpeters",
    now := JsDate.mk 2018 0 15 10 30 5 123,
    checkRefFormat := fun _ => true, trackedFiles := ["a.txt"],
    publishCommitHash := "a1b2c3d4e5f6", cloneDir := "/tmp/publish/sample" }

/-- The Done message the run of `c8Env` actually prints. -/
def c8Report : String :=
  "Done.\nTo include the published library in a Node.js project, execute the following command:\nnpm install git+https://github.com/kwpeters/sample#1.0.0\nnpm install git+https://github.com/kwpeters/sample#[object Promise]"

set_option maxRecDepth 8192 in
/-- C8: the claim says the terminal Done report contains the final commit
revision.  On a successful non-dry-run run the report does carry one
`npm install` reference per tag, but its final line interpolates the
*promise object* returned by the un-awaited `currentCommitHash()` call of
publishtogit.ts line 182: the text reads `#[object Promise]`, and the actual
publish commit revision appears nowhere in the report. -/
theorem done_report_object_promise :
    (runMain c8Env).1 = .ok (.done c8Report)
    ∧ strContains "[object Promise]" c8Report = true
    ∧ strContains c8Env.publishCommitHash c8Report = false
    ∧ strContains "npm install git+https://github.com/kwpeters/sample#1.0.0" c8Report
        = true := by
  refine ⟨rfl, rfl, rfl, rfl⟩
